import Mathlib

/-!
Shallow embedding of `src/main.rs` of the onehour command language: a
line-oriented parser producing `Command` values, and an evaluator that
executes them against a variable table and an operand stack.

Modelling choices:
* text is `List Char`; `String.toList` is used for concrete inputs;
* Rust's `str::lines` and `str::split_ascii_whitespace` are modelled by
  `rustLines` and `tokenize` below;
* `i64` literals are parsed with an explicit range check (`parseI64`);
  the `i64` addition in `Evaluator::add` wraps into the `i64` range
  (`wrap64`), the release-build semantics of the source — a debug build
  panics at overflow, an outcome no `Result` value models;
* `HashMap<String, Value>` is modelled as an association list where
  `insert` prepends a binding and `get` finds the most recent one, which
  is the observable behaviour of the map;
* the mutable state of `Evaluator::evaluate` (variable table, stack, and
  the `output` variable holding a `Result`) is threaded explicitly by
  `runCmds`; early `return` / `?` failures return the final state paired
  with the error.
-/

deriving instance DecidableEq for Except

namespace OneHour

/-- `Value` from main.rs: `Nothing`, `Int(i64)`, `String`. -/
inductive Value where
  | nothing : Value
  | int : Int → Value
  | string : List Char → Value
deriving DecidableEq

/-- `Command` from main.rs. -/
inductive Command where
  | setVar : List Char → Value → Command
  | getVar : List Char → Command
  | pushVar : List Char → Command
  | push : Value → Command
  | pop : Command
  | add : Command
deriving DecidableEq

/-- `EngineError` from main.rs (the `MimatchType` typo is the source's). -/
inductive EngineError where
  | mismatchNumParams : EngineError
  | mimatchType : EngineError
  | unknownCommand : List Char → EngineError
  | missingVariable : List Char → EngineError
  | emptyStack : EngineError
deriving DecidableEq

/-! ## Tokenization: `str::lines` and `str::split_ascii_whitespace` -/

/-- Rust `char::is_ascii_whitespace`: space, tab, newline, form feed,
carriage return. -/
def isAsciiWs (c : Char) : Bool :=
  c = ' ' || c = '\t' || c = '\n' || c = '\x0C' || c = '\r'

/-- One step (folded from the right) of splitting at ASCII whitespace. -/
def wsStep (c : Char) (acc : List (List Char)) : List (List Char) :=
  if isAsciiWs c then [] :: acc
  else
    match acc with
    | [] => [[c]]
    | t :: ts => (c :: t) :: ts

/-- Split at ASCII whitespace, keeping empty fields; always nonempty. -/
def splitWs (cs : List Char) : List (List Char) :=
  cs.foldr wsStep [[]]

/-- Rust `str::split_ascii_whitespace` collected to a list: the
whitespace-separated tokens with empty fields dropped. -/
def tokenize (cs : List Char) : List (List Char) :=
  (splitWs cs).filter (fun t => !t.isEmpty)

/-- One step (folded from the right) of splitting at `'\n'`. -/
def nlStep (c : Char) (acc : List (List Char)) : List (List Char) :=
  if c = '\n' then [] :: acc
  else
    match acc with
    | [] => [[c]]
    | l :: ls => (c :: l) :: ls

/-- Split at `'\n'`, keeping empty fields; always nonempty. -/
def splitNl (cs : List Char) : List (List Char) :=
  cs.foldr nlStep [[]]

/-- Drop one trailing `'\r'`, as `str::lines` does on `'\n'`-terminated
lines. -/
def stripCR (l : List Char) : List Char :=
  if l.getLast? = some '\r' then l.dropLast else l

/-- Post-process the fields of `splitNl`: every field but the last was
`'\n'`-terminated, so it loses a trailing `'\r'`; a last empty field (the
text ended with `'\n'`, or was empty) yields no line. -/
def linesFix : List (List Char) → List (List Char)
  | [] => []
  | [l] => if l.isEmpty then [] else [l]
  | l :: l2 :: ls => stripCR l :: linesFix (l2 :: ls)

/-- Rust `str::lines` collected to a list. -/
def rustLines (cs : List Char) : List (List Char) :=
  linesFix (splitNl cs)

/-! ## The parser (main.rs lines 96-204) -/

/-- `parse_var_name`: accepts any token verbatim, never fails. -/
def parse_var_name (var_name : List Char) : Except EngineError (List Char) :=
  .ok var_name

/-- `parse_string`: a token starting and ending with `'"'` of byte length
more than 1 becomes a `String` with the delimiting quotes stripped;
anything else is a `MimatchType` error. (The first character is ASCII, so
byte length and character length agree on the length test, and the byte
slice `val[1..len-1]` is the character-level drop of both ends.) -/
def parse_string (val : List Char) : Except EngineError Value :=
  if val.head? = some '\"' ∧ val.getLast? = some '\"' ∧ val.length > 1 then
    .ok (.string ((val.drop 1).dropLast))
  else
    .error .mimatchType

/-- Rust `str::parse::<i64>`: an optional sign, then one or more ASCII
digits, with the resulting value within the `i64` range. -/
def parseI64 (cs : List Char) : Option Int :=
  let signDigits : Int × List Char :=
    match cs with
    | '+' :: r => (1, r)
    | '-' :: r => (-1, r)
    | _ => (1, cs)
  let ds := signDigits.2
  if ds ≠ [] ∧ ds.all (fun c => c.isDigit) then
    let v : Int := signDigits.1 * (ds.foldl (fun a c => a * 10 + (c.toNat - 48)) 0 : Nat)
    if -(2 ^ 63) ≤ v ∧ v ≤ 2 ^ 63 - 1 then some v else none
  else none

/-- `parse_int`: delegate to the `i64` literal parse, a failure becomes
`MimatchType`. -/
def parse_int (val : List Char) : Except EngineError Value :=
  match parseI64 val with
  | some x => .ok (.int x)
  | none => .error .mimatchType

/-- `parse_value`: the string-literal test of `parse_string`, else an
integer literal. -/
def parse_value (val : List Char) : Except EngineError Value :=
  if val.head? = some '\"' ∧ val.getLast? = some '\"' ∧ val.length > 1 then
    parse_string val
  else
    parse_int val

/-- `parse_set`: exactly 3 tokens, else `MismatchNumParams`. -/
def parse_set (input : List (List Char)) : Except EngineError Command :=
  match input with
  | [_, n, v] =>
    match parse_var_name n with
    | .error e => .error e
    | .ok var_name =>
      match parse_value v with
      | .error e => .error e
      | .ok value => .ok (.setVar var_name value)
  | _ => .error .mismatchNumParams

/-- `parse_get`: exactly 2 tokens, else `MismatchNumParams`. -/
def parse_get (input : List (List Char)) : Except EngineError Command :=
  match input with
  | [_, n] =>
    match parse_var_name n with
    | .error e => .error e
    | .ok var_name => .ok (.getVar var_name)
  | _ => .error .mismatchNumParams

/-- `parse_pushvar`: exactly 2 tokens, else `MismatchNumParams`. -/
def parse_pushvar (input : List (List Char)) : Except EngineError Command :=
  match input with
  | [_, n] =>
    match parse_var_name n with
    | .error e => .error e
    | .ok var_name => .ok (.pushVar var_name)
  | _ => .error .mismatchNumParams

/-- `parse_push`: exactly 2 tokens, else `MismatchNumParams`. -/
def parse_push (input : List (List Char)) : Except EngineError Command :=
  match input with
  | [_, v] =>
    match parse_value v with
    | .error e => .error e
    | .ok val => .ok (.push val)
  | _ => .error .mismatchNumParams

/-- One iteration of the loop in `parse` (main.rs lines 176-200):
dispatch on the first token of the line; a line with no tokens produces
no command. `pop` and `add` lines push their command with no arity
check. -/
def parseLine (command : List (List Char)) : Except EngineError (Option Command) :=
  match command.head? with
  | none => .ok none
  | some x =>
    if x = "set".toList then (parse_set command).map some
    else if x = "get".toList then (parse_get command).map some
    else if x = "push".toList then (parse_push command).map some
    else if x = "pushvar".toList then (parse_pushvar command).map some
    else if x = "pop".toList then .ok (some .pop)
    else if x = "add".toList then .ok (some .add)
    else .error (.unknownCommand x)

/-- The loop of `parse` over the lines: commands accumulate in line
order, the first failing line aborts the whole parse. -/
def parseLines : List (List Char) → Except EngineError (List Command)
  | [] => .ok []
  | l :: ls =>
    match parseLine (tokenize l) with
    | .error e => .error e
    | .ok none => parseLines ls
    | .ok (some c) =>
      match parseLines ls with
      | .error e => .error e
      | .ok cs => .ok (c :: cs)

/-- `parse` (main.rs lines 170-204). -/
def parse (input : List Char) : Except EngineError (List Command) :=
  parseLines (rustLines input)

/-! ## The evaluator (main.rs lines 35-94) -/

/-- The mutable state of `Evaluator`. -/
structure Evaluator where
  vars : List (List Char × Value)
  stack : List Value
deriving DecidableEq

/-- `Evaluator::new`. -/
def Evaluator.new : Evaluator := ⟨[], []⟩

/-- `HashMap::get`: the most recent binding of the name, if any. -/
def varsGet (n : List Char) (vars : List (List Char × Value)) : Option Value :=
  vars.lookup n

/-- `HashMap::insert`: a new binding shadowing any older one. -/
def varsInsert (n : List Char) (v : Value) (vars : List (List Char × Value)) :
    List (List Char × Value) :=
  (n, v) :: vars

/-- `Evaluator::pop` (main.rs lines 48-54), with the stack explicit:
returns the popped value and the remaining stack, or `EmptyStack`. -/
def pop : List Value → Except EngineError (Value × List Value)
  | [] => .error .emptyStack
  | v :: s => .ok (v, s)

/-- Two's-complement wrap-around into the `i64` range, as a Rust release
build computes an overflowing `i64` addition. -/
def wrap64 (x : Int) : Int :=
  (x + 2 ^ 63) % 2 ^ 64 - 2 ^ 63

/-- `Evaluator::add` (main.rs lines 56-62). The `i64` sum `i1 + i2`
wraps at overflow (release-build semantics; a debug build panics there,
an outcome no `Result` value models). -/
def add : Value → Value → Except EngineError Value
  | .int i1, .int i2 => .ok (.int (wrap64 (i1 + i2)))
  | .string s1, .string s2 => .ok (.string (s1 ++ s2))
  | _, _ => .error .mimatchType

/-- The loop of `Evaluator::evaluate` (main.rs lines 64-93), with the
state and the `output` variable threaded explicitly. A `GetVar` or
`PushVar` miss `return`s, and failures inside `Add` propagate with `?`,
ending the run; a failing `Pop` merely stores the error in `output` and
the loop continues. -/
def runCmds : List Command → Evaluator → Except EngineError Value →
    Evaluator × Except EngineError Value
  | [], st, out => (st, out)
  | c :: rest, st, out =>
    match c with
    | .setVar n v => runCmds rest { st with vars := varsInsert n v st.vars } out
    | .getVar n =>
      match varsGet n st.vars with
      | some v => runCmds rest st (.ok v)
      | none => (st, .error (.missingVariable n))
    | .pushVar n =>
      match varsGet n st.vars with
      | some v => runCmds rest { st with stack := v :: st.stack } out
      | none => (st, .error (.missingVariable n))
    | .push v => runCmds rest { st with stack := v :: st.stack } out
    | .pop =>
      match pop st.stack with
      | .ok (v, s) => runCmds rest { st with stack := s } (.ok v)
      | .error e => runCmds rest st (.error e)
    | .add =>
      match pop st.stack with
      | .error e => (st, .error e)
      | .ok (lhs, s1) =>
        match pop s1 with
        | .error e => ({ st with stack := s1 }, .error e)
        | .ok (rhs, s2) =>
          match add lhs rhs with
          | .error e => ({ st with stack := s2 }, .error e)
          | .ok r => runCmds rest { st with stack := r :: s2 } out

/-- `Evaluator::evaluate`: run from a given state with `output`
initialized to `Ok(Value::Nothing)`; the final state is kept alongside
the returned `Result` since the Rust method mutates `self`. -/
def evaluate (st : Evaluator) (commands : List Command) :
    Evaluator × Except EngineError Value :=
  runCmds commands st (.ok .nothing)

/-- Parse a source text and evaluate it from a fresh evaluator, as
`main` does for each file. -/
def runProgram (input : List Char) : Except EngineError Value :=
  match parse input with
  | .error e => .error e
  | .ok cmds => (evaluate Evaluator.new cmds).2

/-! ## Smoke tests mirroring the `#[test]`s of main.rs -/

example : runProgram "set x 30\nget x".toList = .ok (Value.int 30) := by decide

example : runProgram "set x \"hello\"\nget x".toList = .ok (Value.string "hello".toList) := by
  decide

example : runProgram "push 100\npush 30\nadd\npop".toList = .ok (Value.int 130) := by decide

example : runProgram "set x 33\npushvar x\npush 100\nadd\npop".toList = .ok (Value.int 133) := by
  decide

/-! ## Claim theorems -/

/-- C1 is false as stated: in `pop; push 1; pop` the first command fails
with `EmptyStack` (running it alone shows the failure), yet the later
commands still execute and the overall run result is `Ok(Int(1))`, not
the first error encountered. -/
theorem c1_counterexample :
    (evaluate Evaluator.new [Command.pop]).2 = .error .emptyStack ∧
    (evaluate Evaluator.new [Command.pop, Command.push (Value.int 1), Command.pop]).2
      = .ok (Value.int 1) := by
  constructor <;> rfl

/-- C1 (amended): evaluation stops at the first failing `GetVar`,
`PushVar` or `Add` command — no later command is executed, side effects
already applied stay in place, and the run result is that error. A `Pop`
on an empty stack does not abort the run: it records `EmptyStack` as the
pending output and execution continues, so that error is the run result
only if no later command overwrites the pending output. -/
theorem c1_amended :
    (∀ (n : List Char) (rest : List Command) (st : Evaluator)
        (out : Except EngineError Value), varsGet n st.vars = none →
      runCmds (Command.getVar n :: rest) st out = (st, .error (.missingVariable n))) ∧
    (∀ (n : List Char) (rest : List Command) (st : Evaluator)
        (out : Except EngineError Value), varsGet n st.vars = none →
      runCmds (Command.pushVar n :: rest) st out = (st, .error (.missingVariable n))) ∧
    (∀ (rest : List Command) (st : Evaluator) (out : Except EngineError Value),
        st.stack = [] →
      runCmds (Command.add :: rest) st out = (st, .error .emptyStack)) ∧
    (∀ (rest : List Command) (st : Evaluator) (out : Except EngineError Value)
        (v : Value), st.stack = [v] →
      runCmds (Command.add :: rest) st out = ({ st with stack := [] }, .error .emptyStack)) ∧
    (∀ (rest : List Command) (st : Evaluator) (out : Except EngineError Value)
        (lhs rhs : Value) (s : List Value) (e : EngineError),
        st.stack = lhs :: rhs :: s → add lhs rhs = .error e →
      runCmds (Command.add :: rest) st out = ({ st with stack := s }, .error e)) ∧
    (∀ (rest : List Command) (st : Evaluator) (out : Except EngineError Value),
        st.stack = [] →
      runCmds (Command.pop :: rest) st out = runCmds rest st (.error .emptyStack)) := by
  refine ⟨?_, ?_, ?_, ?_, ?_, ?_⟩
  · intro n rest st out h
    simp [runCmds, h]
  · intro n rest st out h
    simp [runCmds, h]
  · intro rest st out h
    simp [runCmds, h, pop]
  · intro rest st out v h
    simp [runCmds, h, pop]
  · intro rest st out lhs rhs s e hs ha
    simp [runCmds, hs, pop, ha]
  · intro rest st out h
    simp [runCmds, h, pop]

/-- Witness for `c1_amended` at concrete inputs: a missing variable
aborts a fresh run, and `add` on a one-value stack aborts even with a
command pending behind it. -/
theorem c1_amended_witness :
    runCmds [Command.getVar ['x']] Evaluator.new (.ok .nothing)
      = (Evaluator.new, .error (.missingVariable ['x'])) ∧
    runCmds [Command.add, Command.push (Value.int 7)] ⟨[], [Value.int 5]⟩ (.ok .nothing)
      = (⟨[], []⟩, .error .emptyStack) := by
  constructor
  · exact c1_amended.1 ['x'] [] Evaluator.new (.ok .nothing) rfl
  · exact c1_amended.2.2.2.1 [Command.push (Value.int 7)] ⟨[], [Value.int 5]⟩
      (.ok .nothing) (Value.int 5) rfl

/-- C3 is false as stated at overflow: pushing `i64::MAX` twice and
adding yields the wrapped value `Int(-2)` (a debug build panics there),
not the arithmetic sum `18446744073709551614`. -/
theorem c3_counterexample :
    runProgram ("push 9223372036854775807\npush 9223372036854775807\nadd\npop").toList
      = .ok (Value.int (-2)) ∧
    (-2 : Int) ≠ 9223372036854775807 + 9223372036854775807 := by
  constructor
  · decide
  · decide

/-- C3 (amended): `Add` pops the left operand first and the right
operand second; `Int + Int` is the wrapping 64-bit sum — equal to the
arithmetic sum whenever that sum fits in `i64` (at overflow a release
build wraps and a debug build panics); `String + String` is the left
operand's text followed by the right operand's text, the combined value
is pushed back and the pending output is unchanged; every other pairing
(`Int` with `String`, or either operand `Nothing`) fails with the
type-mismatch error; in particular `push "a"; push "b"; add; pop` yields
`String("ba")`. -/
theorem c3_add_combination :
    (∀ (rest : List Command) (st : Evaluator) (out : Except EngineError Value)
        (i1 i2 : Int) (s : List Value), st.stack = Value.int i1 :: Value.int i2 :: s →
      runCmds (Command.add :: rest) st out
        = runCmds rest { st with stack := Value.int (wrap64 (i1 + i2)) :: s } out) ∧
    (∀ i1 i2 : Int, -(2 ^ 63) ≤ i1 + i2 → i1 + i2 ≤ 2 ^ 63 - 1 →
      wrap64 (i1 + i2) = i1 + i2) ∧
    (∀ (rest : List Command) (st : Evaluator) (out : Except EngineError Value)
        (s1 s2 : List Char) (s : List Value),
        st.stack = Value.string s1 :: Value.string s2 :: s →
      runCmds (Command.add :: rest) st out
        = runCmds rest { st with stack := Value.string (s1 ++ s2) :: s } out) ∧
    (∀ (i : Int) (t : List Char), add (Value.int i) (Value.string t) = .error .mimatchType) ∧
    (∀ (i : Int) (t : List Char), add (Value.string t) (Value.int i) = .error .mimatchType) ∧
    (∀ v, add Value.nothing v = .error .mimatchType) ∧
    (∀ v, add v Value.nothing = .error .mimatchType) ∧
    runProgram "push \"a\"\npush \"b\"\nadd\npop".toList = .ok (Value.string "ba".toList) := by
  refine ⟨?_, ?_, ?_, ?_, ?_, ?_, ?_, by decide⟩
  · intro rest st out i1 i2 s h
    simp [runCmds, h, pop, add]
  · intro i1 i2 h1 h2
    have hp : (2 : Int) ^ 63 = 9223372036854775808 := by norm_num
    rw [hp] at h1 h2
    unfold wrap64
    have h0 : (0 : Int) ≤ i1 + i2 + 2 ^ 63 := by rw [hp]; omega
    have h3 : i1 + i2 + 2 ^ 63 < 2 ^ 64 := by
      rw [hp]
      have hq : (2 : Int) ^ 64 = 18446744073709551616 := by norm_num
      rw [hq]
      omega
    rw [Int.emod_eq_of_lt h0 h3]
    omega
  · intro rest st out s1 s2 s h
    simp [runCmds, h, pop, add]
  · intro i t
    rfl
  · intro i t
    rfl
  · intro v
    cases v <;> rfl
  · intro v
    cases v <;> rfl

/-- Witness for `c3_add_combination`: adding `Int(2)` on top of `Int(3)`
pushes the wrapped sum back — which, being in range, is `Int(5)` — and
leaves the pending output alone. -/
theorem c3_add_combination_witness :
    runCmds [Command.add] ⟨[], [Value.int 2, Value.int 3]⟩ (.ok .nothing)
      = runCmds [] ⟨[], [Value.int (wrap64 (2 + 3))]⟩ (.ok .nothing) ∧
    wrap64 (2 + 3) = 2 + 3 := by
  constructor
  · exact c3_add_combination.1 [] ⟨[], [Value.int 2, Value.int 3]⟩ (.ok .nothing) 2 3 [] rfl
  · exact c3_add_combination.2.1 2 3 (by norm_num) (by norm_num)

/-- C4: `pop` on an empty stack fails with `EmptyStack` — the run of
that command yields exactly this error — and `add` with fewer than two
values on the stack (a depth of exactly 1 included) fails the evaluation
with `EmptyStack`. -/
theorem c4_underflow_empty_stack :
    pop ([] : List Value) = .error .emptyStack ∧
    (∀ st : Evaluator, st.stack = [] →
      (evaluate st [Command.pop]).2 = .error .emptyStack) ∧
    (∀ (rest : List Command) (st : Evaluator) (out : Except EngineError Value),
        st.stack.length < 2 →
      (runCmds (Command.add :: rest) st out).2 = .error .emptyStack) := by
  refine ⟨rfl, ?_, ?_⟩
  · intro st h
    simp [evaluate, runCmds, h, pop]
  · intro rest st out h
    match hs : st.stack with
    | [] => simp [runCmds, hs, pop]
    | [v] => simp [runCmds, hs, pop]
    | v :: w :: s =>
      rw [hs] at h
      simp at h
      omega

/-- Witness for `c4_underflow_empty_stack`: a fresh evaluator fails
`pop` with `EmptyStack`, and `add` on a one-value stack fails with
`EmptyStack`. -/
theorem c4_underflow_empty_stack_witness :
    (evaluate Evaluator.new [Command.pop]).2 = .error .emptyStack ∧
    (runCmds [Command.add] ⟨[], [Value.int 1]⟩ (.ok .nothing)).2 = .error .emptyStack := by
  constructor
  · exact c4_underflow_empty_stack.2.1 Evaluator.new rfl
  · exact c4_underflow_empty_stack.2.2 [] ⟨[], [Value.int 1]⟩ (.ok .nothing) (by decide)

/-- C7: `GetVar` or `PushVar` on a name with no binding fails the run
with `MissingVariable` carrying exactly the requested name; in
particular any name fails on a fresh evaluator, where nothing was ever
set. -/
theorem c7_missing_variable :
    (∀ (n : List Char) (rest : List Command) (st : Evaluator)
        (out : Except EngineError Value), varsGet n st.vars = none →
      runCmds (Command.getVar n :: rest) st out = (st, .error (.missingVariable n))) ∧
    (∀ (n : List Char) (rest : List Command) (st : Evaluator)
        (out : Except EngineError Value), varsGet n st.vars = none →
      runCmds (Command.pushVar n :: rest) st out = (st, .error (.missingVariable n))) ∧
    (∀ n : List Char, (evaluate Evaluator.new [Command.getVar n]).2
      = .error (.missingVariable n)) ∧
    (∀ n : List Char, (evaluate Evaluator.new [Command.pushVar n]).2
      = .error (.missingVariable n)) := by
  refine ⟨?_, ?_, ?_, ?_⟩
  · intro n rest st out h
    simp [runCmds, h]
  · intro n rest st out h
    simp [runCmds, h]
  · intro n
    simp [evaluate, runCmds, varsGet, Evaluator.new]
  · intro n
    simp [evaluate, runCmds, varsGet, Evaluator.new]

/-- Witness for `c7_missing_variable`: `get y` on a fresh evaluator
fails with `MissingVariable("y")`. -/
theorem c7_missing_variable_witness :
    runCmds [Command.getVar ['y']] Evaluator.new (.ok .nothing)
      = (Evaluator.new, .error (.missingVariable ['y'])) := by
  exact c7_missing_variable.1 ['y'] [] Evaluator.new (.ok .nothing) rfl

/-- C9: `Add` on a stack holding exactly one value fails the run with
`EmptyStack`, and the first pop's side effect persists: the final stack
is empty (the variable table and everything else untouched). -/
theorem c9_add_single_pop_persists :
    ∀ (rest : List Command) (st : Evaluator) (out : Except EngineError Value)
      (v : Value), st.stack = [v] →
      runCmds (Command.add :: rest) st out = ({ st with stack := [] }, .error .emptyStack) := by
  intro rest st out v h
  simp [runCmds, h, pop]

/-- Witness for `c9_add_single_pop_persists`: `add` on stack `[Int(9)]`
with a binding `x ↦ Int(1)` fails with `EmptyStack`, the stack ends
empty, and the binding is retained. -/
theorem c9_add_single_pop_persists_witness :
    runCmds [Command.add] ⟨[(['x'], Value.int 1)], [Value.int 9]⟩ (.ok .nothing)
      = (⟨[(['x'], Value.int 1)], []⟩, .error .emptyStack) := by
  exact c9_add_single_pop_persists [] ⟨[(['x'], Value.int 1)], [Value.int 9]⟩
    (.ok .nothing) (Value.int 9) rfl

/-- `parse_value` reports literal failures as `MimatchType`, never as an
arity error. -/
lemma parse_value_ne_mismatchNumParams (v : List Char) :
    parse_value v ≠ .error .mismatchNumParams := by
  unfold parse_value parse_string parse_int
  split
  · simp
  · cases parseI64 v <;> simp

/-- C2 is false as stated: a line whose first token is `pop` (or `add`)
parses with no arity check at all, so the two-token line `pop junk` and
the three-token line `add 1 2` do not fail with `MismatchNumParams`. -/
theorem c2_counterexample :
    parse "pop junk".toList = .ok [Command.pop] ∧
    parse "add 1 2".toList = .ok [Command.add] := by
  constructor <;> rfl

/-- C2 (amended): for `set`, `get`, `push` and `pushvar` the parser
fails with `MismatchNumParams` exactly when the line's token count
differs from the required count (set: 3 tokens, get: 2, push: 2,
pushvar: 2); for `pop` and `add` no arity check is performed — any line
whose first token is `pop` (resp. `add`) parses as `Pop` (resp. `Add`)
whatever tokens trail it. -/
theorem c2_arity :
    (∀ toks : List (List Char), toks.head? = some "set".toList →
      (parseLine toks = .error .mismatchNumParams ↔ toks.length ≠ 3)) ∧
    (∀ toks : List (List Char), toks.head? = some "get".toList →
      (parseLine toks = .error .mismatchNumParams ↔ toks.length ≠ 2)) ∧
    (∀ toks : List (List Char), toks.head? = some "push".toList →
      (parseLine toks = .error .mismatchNumParams ↔ toks.length ≠ 2)) ∧
    (∀ toks : List (List Char), toks.head? = some "pushvar".toList →
      (parseLine toks = .error .mismatchNumParams ↔ toks.length ≠ 2)) ∧
    (∀ toks : List (List Char), toks.head? = some "pop".toList →
      parseLine toks = .ok (some Command.pop)) ∧
    (∀ toks : List (List Char), toks.head? = some "add".toList →
      parseLine toks = .ok (some Command.add)) := by
  refine ⟨?_, ?_, ?_, ?_, ?_, ?_⟩
  · intro toks h
    match toks, h with
    | x :: rest, h =>
      have hx : x = "set".toList := by simpa using h
      subst hx
      have hdisp : parseLine ("set".toList :: rest)
          = (parse_set ("set".toList :: rest)).map some := rfl
      rw [hdisp]
      match rest with
      | [] => simp [parse_set, Except.map]
      | [a] => simp [parse_set, Except.map]
      | [a, b] =>
        have hne := parse_value_ne_mismatchNumParams b
        cases hpv : parse_value b with
        | error e =>
          rw [hpv] at hne
          simpa [parse_set, parse_var_name, hpv, Except.map] using hne
        | ok w => simp [parse_set, parse_var_name, hpv, Except.map]
      | a :: b :: c :: more => simp [parse_set, Except.map]
  · intro toks h
    match toks, h with
    | x :: rest, h =>
      have hx : x = "get".toList := by simpa using h
      subst hx
      have hdisp : parseLine ("get".toList :: rest)
          = (parse_get ("get".toList :: rest)).map some := rfl
      rw [hdisp]
      match rest with
      | [] => simp [parse_get, Except.map]
      | [a] => simp [parse_get, parse_var_name, Except.map]
      | a :: b :: more => simp [parse_get, Except.map]
  · intro toks h
    match toks, h with
    | x :: rest, h =>
      have hx : x = "push".toList := by simpa using h
      subst hx
      have hdisp : parseLine ("push".toList :: rest)
          = (parse_push ("push".toList :: rest)).map some := rfl
      rw [hdisp]
      match rest with
      | [] => simp [parse_push, Except.map]
      | [a] =>
        have hne := parse_value_ne_mismatchNumParams a
        cases hpv : parse_value a with
        | error e =>
          rw [hpv] at hne
          simpa [parse_push, hpv, Except.map] using hne
        | ok w => simp [parse_push, hpv, Except.map]
      | a :: b :: more => simp [parse_push, Except.map]
  · intro toks h
    match toks, h with
    | x :: rest, h =>
      have hx : x = "pushvar".toList := by simpa using h
      subst hx
      have hdisp : parseLine ("pushvar".toList :: rest)
          = (parse_pushvar ("pushvar".toList :: rest)).map some := rfl
      rw [hdisp]
      match rest with
      | [] => simp [parse_pushvar, Except.map]
      | [a] => simp [parse_pushvar, parse_var_name, Except.map]
      | a :: b :: more => simp [parse_pushvar, Except.map]
  · intro toks h
    match toks, h with
    | x :: rest, h =>
      have hx : x = "pop".toList := by simpa using h
      subst hx
      rfl
  · intro toks h
    match toks, h with
    | x :: rest, h =>
      have hx : x = "add".toList := by simpa using h
      subst hx
      rfl

/-- Witness for `c2_arity`: a lone `set` fails the arity check, a lone
`get x y` fails it too, and `pop junk` parses as `Pop`. -/
theorem c2_arity_witness :
    parseLine [("set").toList] = .error .mismatchNumParams ∧
    parseLine [("get").toList, ['x'], ['y']] = .error .mismatchNumParams ∧
    parseLine [("pop").toList, ("junk").toList] = .ok (some Command.pop) := by
  refine ⟨?_, ?_, ?_⟩
  · exact (c2_arity.1 [("set").toList] rfl).mpr (by decide)
  · exact (c2_arity.2.1 [("get").toList, ['x'], ['y']] rfl).mpr (by decide)
  · exact c2_arity.2.2.2.2.1 [("pop").toList, ("junk").toList] rfl

/-- C5: a token starting with `'"'`, ending with `'"'` and of length
more than 1 parses as a `String` with the two delimiting quotes stripped
and nothing else changed; any other token (a bare `'"'` and a token
starting but not ending with `'"'` included) goes through the signed
64-bit integer parse, whose failure is the type-mismatch error. -/
theorem c5_value_literal :
    (∀ cs : List Char, cs.head? = some '\"' → cs.getLast? = some '\"' → cs.length > 1 →
      parse_value cs = .ok (Value.string ((cs.drop 1).dropLast))) ∧
    (∀ cs : List Char, ¬(cs.head? = some '\"' ∧ cs.getLast? = some '\"' ∧ cs.length > 1) →
      ((∃ n, parseI64 cs = some n ∧ parse_value cs = .ok (Value.int n)) ∨
       (parseI64 cs = none ∧ parse_value cs = .error .mimatchType))) ∧
    parse_value ['\"'] = .error .mimatchType ∧
    parse_value ('\"' :: "ab".toList) = .error .mimatchType ∧
    parse_value "-42".toList = .ok (Value.int (-42)) ∧
    parse_value "9223372036854775807".toList = .ok (Value.int 9223372036854775807) ∧
    parse_value "9223372036854775808".toList = .error .mimatchType := by
  refine ⟨?_, ?_, by decide, by decide, by decide, by decide, by decide⟩
  · intro cs h1 h2 h3
    unfold parse_value parse_string
    rw [if_pos ⟨h1, h2, h3⟩, if_pos ⟨h1, h2, h3⟩]
  · intro cs h
    unfold parse_value parse_int
    rw [if_neg h]
    cases hp : parseI64 cs with
    | some n => exact .inl ⟨n, rfl, rfl⟩
    | none => exact .inr ⟨rfl, rfl⟩

/-- Witness for `c5_value_literal`: the quoted token `"hi"` strips to
`String("hi")` and the unquoted token `12` takes the integer branch. -/
theorem c5_value_literal_witness :
    parse_value ("\"hi\"").toList
      = .ok (Value.string ((("\"hi\"").toList.drop 1).dropLast)) ∧
    ((∃ n, parseI64 ("12").toList = some n ∧
        parse_value ("12").toList = .ok (Value.int n)) ∨
     (parseI64 ("12").toList = none ∧
        parse_value ("12").toList = .error .mimatchType)) := by
  constructor
  · exact c5_value_literal.1 ("\"hi\"").toList (by decide) (by decide) (by decide)
  · exact c5_value_literal.2.1 ("12").toList (by decide)

/-- A line of nothing but ASCII whitespace has no tokens. -/
lemma tokenize_ws_only (l : List Char) (h : ∀ c ∈ l, isAsciiWs c = true) :
    tokenize l = [] := by
  induction l with
  | nil => rfl
  | cons c cs ih =>
    have hc : isAsciiWs c = true := h c (by simp)
    have ih' := ih (fun d hd => h d (by simp [hd]))
    have hsplit : splitWs (c :: cs) = [] :: splitWs cs := by
      simp [splitWs, wsStep, hc]
    unfold tokenize
    rw [hsplit]
    simpa [tokenize] using ih'

/-- C8: an unknown leading keyword fails with `UnknownCommand` carrying
exactly that token; a line with zero tokens produces no command and no
error; and the parse of consecutive line blocks is the concatenation of
their commands, so the output lists commands in source line order. -/
theorem c8_unknown_blank_order :
    (∀ (toks : List (List Char)) (x : List Char), toks.head? = some x →
      x ≠ "set".toList → x ≠ "get".toList → x ≠ "push".toList →
      x ≠ "pushvar".toList → x ≠ "pop".toList → x ≠ "add".toList →
      parseLine toks = .error (.unknownCommand x)) ∧
    (∀ l : List Char, (∀ c ∈ l, isAsciiWs c = true) → parseLine (tokenize l) = .ok none) ∧
    (∀ (ls1 ls2 : List (List Char)) (cs1 cs2 : List Command),
      parseLines ls1 = .ok cs1 → parseLines ls2 = .ok cs2 →
      parseLines (ls1 ++ ls2) = .ok (cs1 ++ cs2)) ∧
    parse "\n  \npush 7\n\npop".toList = .ok [Command.push (Value.int 7), Command.pop] := by
  refine ⟨?_, ?_, ?_, by decide⟩
  · intro toks x hx h1 h2 h3 h4 h5 h6
    match toks, hx with
    | y :: rest, hx =>
      have hy : y = x := by simpa using hx
      subst hy
      have h1x : y ≠ ['s', 'e', 't'] := h1
      have h2x : y ≠ ['g', 'e', 't'] := h2
      have h3x : y ≠ ['p', 'u', 's', 'h'] := h3
      have h4x : y ≠ ['p', 'u', 's', 'h', 'v', 'a', 'r'] := h4
      have h5x : y ≠ ['p', 'o', 'p'] := h5
      have h6x : y ≠ ['a', 'd', 'd'] := h6
      simp [parseLine, h1x, h2x, h3x, h4x, h5x, h6x]
  · intro l h
    rw [tokenize_ws_only l h]
    rfl
  · intro ls1 ls2 cs1 cs2 h1 h2
    induction ls1 generalizing cs1 with
    | nil =>
      simp [parseLines] at h1
      subst h1
      simpa using h2
    | cons l ls ih =>
      rw [List.cons_append]
      unfold parseLines at h1 ⊢
      cases hp : parseLine (tokenize l) with
      | error e =>
        rw [hp] at h1
        simp at h1
      | ok oc =>
        cases oc with
        | none =>
          rw [hp] at h1
          exact ih cs1 h1
        | some c =>
          rw [hp] at h1
          cases hrest : parseLines ls with
          | error e =>
            rw [hrest] at h1
            simp at h1
          | ok cs' =>
            rw [hrest] at h1
            simp at h1
            subst h1
            rw [ih cs' hrest]
            simp

/-- Witness for `c8_unknown_blank_order`: the unknown keyword `foo`
carries its own token in the error, a whitespace-only line parses to
nothing, and a parsed block before another keeps its commands first. -/
theorem c8_unknown_blank_order_witness :
    parseLine [("foo").toList] = .error (.unknownCommand ("foo").toList) ∧
    parseLine (tokenize ("  ").toList) = .ok none ∧
    parseLines [("pop").toList] = .ok [Command.pop] := by
  refine ⟨?_, ?_, ?_⟩
  · exact c8_unknown_blank_order.1 [("foo").toList] ("foo").toList rfl
      (by decide) (by decide) (by decide) (by decide) (by decide) (by decide)
  · exact c8_unknown_blank_order.2.1 ("  ").toList (by decide)
  · exact c8_unknown_blank_order.2.2.1 [("pop").toList] [] [Command.pop] [] rfl rfl

/-- Folding `wsStep` over whitespace-free characters extends the current
field. -/
lemma foldr_wsStep_no_ws (w t : List Char) (ts : List (List Char))
    (h : ∀ c ∈ w, isAsciiWs c = false) :
    w.foldr wsStep (t :: ts) = (w ++ t) :: ts := by
  induction w with
  | nil => rfl
  | cons c cs ih =>
    have hc : isAsciiWs c = false := h c (by simp)
    rw [List.foldr_cons, ih (fun d hd => h d (by simp [hd]))]
    simp [wsStep, hc]

/-- `splitWs` always produces at least one field. -/
lemma splitWs_shape (cs : List Char) : ∃ t ts, splitWs cs = t :: ts := by
  induction cs with
  | nil => exact ⟨[], [], rfl⟩
  | cons c cs ih =>
    obtain ⟨t, ts, h⟩ := ih
    have hstep : splitWs (c :: cs) = wsStep c (splitWs cs) := rfl
    cases hc : isAsciiWs c with
    | true => exact ⟨[], splitWs cs, by rw [hstep]; simp [wsStep, hc]⟩
    | false => exact ⟨c :: t, ts, by rw [hstep, h]; simp [wsStep, hc]⟩

/-- Splitting at a whitespace character after a whitespace-free prefix
cuts exactly there. -/
lemma splitWs_append_sep (w rest : List Char) (d : Char)
    (hw : ∀ c ∈ w, isAsciiWs c = false) (hd : isAsciiWs d = true) :
    splitWs (w ++ d :: rest) = w :: splitWs rest := by
  obtain ⟨t, ts, h⟩ := splitWs_shape rest
  have e1 : splitWs (w ++ d :: rest) = w.foldr wsStep ([] :: splitWs rest) := by
    unfold splitWs
    rw [List.foldr_append, List.foldr_cons]
    congr 1
    simp [wsStep, hd]
  rw [e1, h, foldr_wsStep_no_ws w [] (t :: ts) hw]
  simp

/-- A nonempty whitespace-free text is one field. -/
lemma splitWs_single (w : List Char) (hw : ∀ c ∈ w, isAsciiWs c = false) :
    splitWs w = [w] := by
  simpa [splitWs] using foldr_wsStep_no_ws w [] [] hw

/-- Folding `nlStep` over newline-free characters extends the current
line. -/
lemma foldr_nlStep_no_nl (w l : List Char) (ls : List (List Char))
    (h : ∀ c ∈ w, c ≠ '\n') :
    w.foldr nlStep (l :: ls) = (w ++ l) :: ls := by
  induction w with
  | nil => rfl
  | cons c cs ih =>
    have hc : c ≠ '\n' := h c (by simp)
    rw [List.foldr_cons, ih (fun d hd => h d (by simp [hd]))]
    simp [nlStep, hc]

/-- `splitNl` always produces at least one field. -/
lemma splitNl_shape (cs : List Char) : ∃ t ts, splitNl cs = t :: ts := by
  induction cs with
  | nil => exact ⟨[], [], rfl⟩
  | cons c cs ih =>
    obtain ⟨t, ts, h⟩ := ih
    have hstep : splitNl (c :: cs) = nlStep c (splitNl cs) := rfl
    by_cases hc : c = '\n'
    · exact ⟨[], splitNl cs, by rw [hstep]; simp [nlStep, hc]⟩
    · exact ⟨c :: t, ts, by rw [hstep, h]; simp [nlStep, hc]⟩

/-- Splitting at a `'\n'` after a newline-free prefix cuts exactly
there. -/
lemma splitNl_append_nl (w rest : List Char) (hw : ∀ c ∈ w, c ≠ '\n') :
    splitNl (w ++ '\n' :: rest) = w :: splitNl rest := by
  obtain ⟨t, ts, h⟩ := splitNl_shape rest
  have e1 : splitNl (w ++ '\n' :: rest) = w.foldr nlStep ([] :: splitNl rest) := by
    unfold splitNl
    rw [List.foldr_append, List.foldr_cons]
    simp [nlStep]
  rw [e1, h, foldr_nlStep_no_nl w [] (t :: ts) hw]
  simp

/-- A newline-free text is one field. -/
lemma splitNl_single (w : List Char) (hw : ∀ c ∈ w, c ≠ '\n') :
    splitNl w = [w] := by
  simpa [splitNl] using foldr_nlStep_no_nl w [] [] hw

/-- A whitespace-free character is not a newline. -/
lemma ne_nl_of_no_ws {w : List Char} (h : ∀ c ∈ w, isAsciiWs c = false) :
    ∀ c ∈ w, c ≠ '\n' := by
  intro c hc he
  have hx := h c hc
  rw [he] at hx
  exact absurd hx (by decide)

/-- A two-line text with newline-free halves, the first not ending in a
carriage return and the second nonempty, yields exactly those two
lines. -/
lemma rustLines_two (a b : List Char) (ha : ∀ c ∈ a, c ≠ '\n')
    (hb : ∀ c ∈ b, c ≠ '\n') (har : a.getLast? ≠ some '\r') (hbne : b ≠ []) :
    rustLines (a ++ '\n' :: b) = [a, b] := by
  unfold rustLines
  rw [splitNl_append_nl a b ha, splitNl_single b hb]
  have hbe : b.isEmpty = false := by
    cases b
    · exact absurd rfl hbne
    · rfl
  have hcr : stripCR a = a := by
    unfold stripCR
    rw [if_neg har]
  simp [linesFix, hcr, hbe]

/-- Tokenizing a `set NAME LIT` line with whitespace-free nonempty name
and literal. -/
lemma tokenize_set_line (name lit : List Char)
    (hn : name ≠ []) (hnw : ∀ c ∈ name, isAsciiWs c = false)
    (hl : lit ≠ []) (hlw : ∀ c ∈ lit, isAsciiWs c = false) :
    tokenize (("set ").toList ++ name ++ (' ' :: lit))
      = [("set").toList, name, lit] := by
  have e0 : ("set ").toList ++ name ++ (' ' :: lit)
      = ['s', 'e', 't'] ++ ' ' :: (name ++ ' ' :: lit) := by simp
  have e1 : splitWs (['s', 'e', 't'] ++ ' ' :: (name ++ ' ' :: lit))
      = ['s', 'e', 't'] :: splitWs (name ++ ' ' :: lit) :=
    splitWs_append_sep _ _ _ (by decide) (by decide)
  have e2 : splitWs (name ++ ' ' :: lit) = name :: splitWs lit :=
    splitWs_append_sep _ _ _ hnw (by decide)
  have e3 : splitWs lit = [lit] := splitWs_single lit hlw
  have hne : name.isEmpty = false := by
    cases name
    · exact absurd rfl hn
    · rfl
  have hle : lit.isEmpty = false := by
    cases lit
    · exact absurd rfl hl
    · rfl
  unfold tokenize
  rw [e0, e1, e2, e3]
  simp [List.filter, hne, hle]

/-- Tokenizing a `get NAME` line with a whitespace-free nonempty
name. -/
lemma tokenize_get_line (name : List Char)
    (hn : name ≠ []) (hnw : ∀ c ∈ name, isAsciiWs c = false) :
    tokenize (("get ").toList ++ name) = [("get").toList, name] := by
  have e0 : ("get ").toList ++ name = ['g', 'e', 't'] ++ ' ' :: name := by simp
  have e1 : splitWs (['g', 'e', 't'] ++ ' ' :: name)
      = ['g', 'e', 't'] :: splitWs name :=
    splitWs_append_sep _ _ _ (by decide) (by decide)
  have e2 : splitWs name = [name] := splitWs_single name hnw
  have hne : name.isEmpty = false := by
    cases name
    · exact absurd rfl hn
    · rfl
  unfold tokenize
  rw [e0, e1, e2]
  simp [List.filter, hne]

/-- A line parsing to a command prepends it to the following lines'
commands. -/
lemma parseLines_cons_some (l : List Char) (ls : List (List Char)) (c : Command)
    (cs : List Command) (h1 : parseLine (tokenize l) = .ok (some c))
    (h2 : parseLines ls = .ok cs) :
    parseLines (l :: ls) = .ok (c :: cs) := by
  unfold parseLines
  rw [h1, h2]

/-- C6: for every whitespace-free nonempty variable name and valid
literal token, running `set NAME LIT` then `get NAME` from the raw text
yields exactly the parsed literal's value; setting the same name twice
makes `get` yield the later binding (last write wins), as the concrete
run `set x 1; set x 2; get x → Int(2)` also shows. -/
theorem c6_set_then_get :
    (∀ (name lit : List Char) (v : Value),
      name ≠ [] → (∀ c ∈ name, isAsciiWs c = false) →
      lit ≠ [] → (∀ c ∈ lit, isAsciiWs c = false) →
      parse_value lit = .ok v →
      runProgram ((("set ").toList ++ name ++ (' ' :: lit)) ++ '\n' ::
        (("get ").toList ++ name)) = .ok v) ∧
    (∀ (name : List Char) (v1 v2 : Value) (st : Evaluator),
      (evaluate st [Command.setVar name v1, Command.setVar name v2,
        Command.getVar name]).2 = .ok v2) ∧
    runProgram "set x 1\nset x 2\nget x".toList = .ok (Value.int 2) := by
  refine ⟨?_, ?_, by decide⟩
  · intro name lit v hn hnw hl hlw hv
    have hnl_name : ∀ c ∈ name, c ≠ '\n' := ne_nl_of_no_ws hnw
    have hnl_lit : ∀ c ∈ lit, c ≠ '\n' := ne_nl_of_no_ws hlw
    have hA_nl : ∀ c ∈ ("set ").toList ++ name ++ (' ' :: lit), c ≠ '\n' := by
      intro c hc
      rcases List.mem_append.mp hc with h | h
      · rcases List.mem_append.mp h with h2 | h2
        · have hx : c ∈ ['s', 'e', 't', ' '] := h2
          fin_cases hx <;> decide
        · exact hnl_name c h2
      · rcases List.mem_cons.mp h with rfl | h3
        · decide
        · exact hnl_lit c h3
    have hB_nl : ∀ c ∈ ("get ").toList ++ name, c ≠ '\n' := by
      intro c hc
      rcases List.mem_append.mp hc with h | h
      · have hx : c ∈ ['g', 'e', 't', ' '] := h
        fin_cases hx <;> decide
      · exact hnl_name c h
    have hA_last : (("set ").toList ++ name ++ (' ' :: lit)).getLast? ≠ some '\r' := by
      have e2 : (("set ").toList ++ name ++ (' ' :: lit)).getLast?
          = (' ' :: lit).getLast? :=
        List.getLast?_append_cons _ ' ' lit
      have e3 : (' ' :: lit).getLast? = lit.getLast? :=
        List.getLast?_append_of_ne_nil [' '] hl
      rw [e2, e3, List.getLast?_eq_getLast_of_ne_nil hl]
      intro hcontra
      have hmem : lit.getLast hl ∈ lit := List.getLast_mem hl
      have := hlw _ hmem
      rw [Option.some.injEq] at hcontra
      rw [hcontra] at this
      exact absurd this (by decide)
    have hBne : ("get ").toList ++ name ≠ [] := by simp
    have hlines : rustLines ((("set ").toList ++ name ++ (' ' :: lit)) ++ '\n' ::
        (("get ").toList ++ name))
        = [("set ").toList ++ name ++ (' ' :: lit), ("get ").toList ++ name] :=
      rustLines_two _ _ hA_nl hB_nl hA_last hBne
    have htokA := tokenize_set_line name lit hn hnw hl hlw
    have htokB := tokenize_get_line name hn hnw
    have hpA : parseLine (tokenize (("set ").toList ++ name ++ (' ' :: lit)))
        = .ok (some (Command.setVar name v)) := by
      rw [htokA]
      simp [parseLine, parse_set, parse_var_name, hv, Except.map]
    have hpB : parseLine (tokenize (("get ").toList ++ name))
        = .ok (some (Command.getVar name)) := by
      rw [htokB]
      rfl
    have hparse : parse ((("set ").toList ++ name ++ (' ' :: lit)) ++ '\n' ::
        (("get ").toList ++ name))
        = .ok [Command.setVar name v, Command.getVar name] := by
      unfold parse
      rw [hlines]
      exact parseLines_cons_some _ _ _ _ hpA (parseLines_cons_some _ _ _ _ hpB rfl)
    unfold runProgram
    rw [hparse]
    simp [evaluate, runCmds, varsInsert, varsGet, List.lookup, Evaluator.new]
  · intro name v1 v2 st
    simp [evaluate, runCmds, varsInsert, varsGet, List.lookup]

/-- Witness for `c6_set_then_get`: the raw text `set x 30` / `get x`
runs to `Int(30)`. -/
theorem c6_set_then_get_witness :
    runProgram ((("set ").toList ++ ['x'] ++ (' ' :: ("30").toList)) ++ '\n' ::
      (("get ").toList ++ ['x'])) = .ok (Value.int 30) := by
  exact c6_set_then_get.1 ['x'] ("30").toList (Value.int 30) (by decide) (by decide)
    (by decide) (by decide) (by decide)

/-- C10: any token is a valid variable name — `parse_var_name` returns
it verbatim, `set`/`get`/`pushvar` build the command with it, and even
the keywords themselves or quote-delimited tokens work as names. -/
theorem c10_var_names_unrestricted :
    (∀ n : List Char, parse_var_name n = .ok n) ∧
    (∀ (name lit : List Char) (v : Value), parse_value lit = .ok v →
      parse_set [("set").toList, name, lit] = .ok (Command.setVar name v)) ∧
    (∀ name : List Char, parse_get [("get").toList, name] = .ok (Command.getVar name)) ∧
    (∀ name : List Char,
      parse_pushvar [("pushvar").toList, name] = .ok (Command.pushVar name)) ∧
    parse "set set 1\nget set\npushvar \"x\"".toList
      = .ok [Command.setVar ("set").toList (Value.int 1), Command.getVar ("set").toList,
             Command.pushVar ("\"x\"").toList] := by
  refine ⟨fun n => rfl, ?_, fun name => rfl, fun name => rfl, by decide⟩
  intro name lit v h
  simp [parse_set, parse_var_name, h]

/-- Witness for `c10_var_names_unrestricted`: the keyword `add` used as
a variable name in a `set` command is carried verbatim. -/
theorem c10_var_names_unrestricted_witness :
    parse_set [("set").toList, ("add").toList, ['1']]
      = .ok (Command.setVar ("add").toList (Value.int 1)) := by
  exact c10_var_names_unrestricted.2.1 ("add").toList ['1'] (Value.int 1) (by decide)

end OneHour
